import Mathlib

/-!
# Verification of the Availability & Booking Orchestration Engine

A shallow embedding, in Lean 4, of the scheduling core of the
Service_chatbot_backend repository:

* `app/google_calendar.py` — `compute_free_slots_from_freebusy`
  (busy-interval aggregation, interval merging, slot generation);
* `app/crud.py` — the Booking store operations `create_booking`,
  `get_booking_by_ref`, `update_booking_status`, `reschedule_booking`,
  `cancel_booking`;
* `app/routers/schedule_routes.py` — the orchestration endpoints
  `availability`, `book`, `reschedule`, `cancel`.

Instants are modelled as natural numbers (minutes); the database session is
modelled as a list of `Booking` rows with commit-or-rollback semantics
(a failed write leaves the list unchanged); external calendar calls are
modelled by an oracle describing their outcomes plus an explicit trace of
the calls issued.
-/

namespace Chatbot

/-- A time interval `(start, end)` in minutes, half-open `[start, end)`.
Mirrors the `(bstart, bend)` tuples of `compute_free_slots_from_freebusy`. -/
abbrev Interval := Nat × Nat

/-! ## Slot packing

`packSlots t limit dur` models the source loop
`while t + timedelta(minutes=duration_minutes) <= limit: append (t, t+dur)`.
The `0 < dur` guard makes the recursion well-founded; the Python loop does
not terminate for `dur = 0`, and every property below is stated for
`0 < dur` only, where the two guards coincide. -/
def packSlots (t limit dur : Nat) : List Interval :=
  if _h : 0 < dur ∧ t + dur ≤ limit then
    (t, t + dur) :: packSlots (t + dur) limit dur
  else
    []
termination_by limit - t
decreasing_by omega

/-! ## Interval merging

The source sorts the aggregated busy intervals by start
(`busy_intervals.sort(key=lambda x: x[0])`) and then folds them, merging
each interval into the last merged one when `interval[0] <= last[1]`
(overlapping or touching), taking `(last[0], max(last[1], interval[1]))`. -/

/-- Sort key of the source's `sort(key=lambda x: x[0])`. -/
def startLe (a b : Interval) : Prop := a.1 ≤ b.1

instance : DecidableRel startLe := fun a b => Nat.decLe a.1 b.1

instance : IsTotal Interval startLe := ⟨fun a b => Nat.le_total a.1 b.1⟩

instance : IsTrans Interval startLe := ⟨fun _ _ _ h1 h2 => Nat.le_trans h1 h2⟩

/-- The sorting step of `compute_free_slots_from_freebusy`. -/
def sortByStart (l : List Interval) : List Interval :=
  List.insertionSort startLe l

/-- The merging fold: `cur` is the last merged interval (the only one the
source ever mutates); an incoming interval `b` with `b.1 ≤ cur.2` is merged
as `(cur.1, max cur.2 b.2)`, otherwise `cur` is emitted and `b` starts the
next merged interval. -/
def mergeGo (cur : Interval) : List Interval → List Interval
  | [] => [cur]
  | b :: rest =>
    if b.1 ≤ cur.2 then
      mergeGo (cur.1, max cur.2 b.2) rest
    else
      cur :: mergeGo b rest

/-- The full interval merger of `compute_free_slots_from_freebusy`:
sort by start, then the merging fold. -/
def mergeIntervals (busy : List Interval) : List Interval :=
  match sortByStart busy with
  | [] => []
  | a :: rest => mergeGo a rest

/-! ## Slot generation (the walk through the day) -/

/-- The walk of `compute_free_slots_from_freebusy` over the merged busy
intervals: before each busy interval pack slots while they fit before its
start (guarded by `bstart > current`), then advance the cursor to
`max current bend`; after the last busy interval pack slots up to the end
of the working window. -/
def freeSlotsGo : List Interval → Nat → Nat → Nat → List Interval
  | [], current, endDt, dur => packSlots current endDt dur
  | (bstart, bend) :: rest, current, endDt, dur =>
    (if current < bstart then packSlots current bstart dur else []) ++
      freeSlotsGo rest (max current bend) endDt dur

/-- The slot generator on already-merged busy intervals: the part of
`compute_free_slots_from_freebusy` after the merge, with
`start_dt`/`end_dt` the working-window bounds. -/
def computeSlots (merged : List Interval) (start_dt end_dt dur : Nat) : List Interval :=
  freeSlotsGo merged start_dt end_dt dur

/-! ## Freebusy response aggregation -/

/-- One raw busy entry of the freebusy response: the optional `"start"` and
`"end"` string fields of the dict `b`. -/
structure RawBusy where
  «start» : Option String
  «end» : Option String
deriving DecidableEq

/-- The `"calendars"` mapping of the freebusy response: calendar id to its
list of raw busy entries. -/
structure FreeBusyResp where
  calendars : List (String × List RawBusy)
deriving DecidableEq

/-- The per-entry parse of the aggregation loop: an entry contributes an
interval exactly when both its `"start"` and `"end"` fields are present and
parse; otherwise it is skipped (the source logs and continues, whether the
field is missing or `datetime.fromisoformat` raises). The instant parser
(`datetime.fromisoformat` after the `Z` replacement) is a library call,
modelled as an explicit function parameter. -/
def parseBusyEntry (parse : String → Option Nat) (b : RawBusy) : Option Interval :=
  match b.«start».bind parse, b.«end».bind parse with
  | some s, some e => some (s, e)
  | _, _ => none

/-- The aggregation loop of `compute_free_slots_from_freebusy`: flatten all
calendars' busy entries, keeping those that parse. -/
def aggregateBusy (parse : String → Option Nat) (resp : FreeBusyResp) : List Interval :=
  resp.calendars.flatMap fun c => c.2.filterMap (parseBusyEntry parse)

/-- `compute_free_slots_from_freebusy`: aggregate, merge, then walk the
working window `[dayStart + work_start*60, dayStart + work_end*60)` (the
source builds `start_dt`/`end_dt` from the date and the hour-of-day values;
`dayStart` is the date's midnight in minutes). -/
def compute_free_slots_from_freebusy (parse : String → Option Nat) (freebusy_resp : FreeBusyResp)
    (dayStart duration_minutes work_start work_end : Nat) : List Interval :=
  computeSlots (mergeIntervals (aggregateBusy parse freebusy_resp))
    (dayStart + work_start * 60) (dayStart + work_end * 60) duration_minutes

/-- The `availability` route body after request validation: a failed
freebusy query (`Except.error`) fails the whole call with
`freebusy_failed`; a successful one yields the computed slots. -/
def availability (fbResult : Except String FreeBusyResp) (parse : String → Option Nat)
    (dayStart duration work_start work_end : Nat) : Except String (List Interval) :=
  match fbResult with
  | .error _ => .error "freebusy_failed"
  | .ok fb => .ok (compute_free_slots_from_freebusy parse fb dayStart duration work_start work_end)

/-- A freebusy response with the malformed (non-parsing) busy entries
removed; used to state that malformed entries are skipped. -/
def wellFormedOnly (parse : String → Option Nat) (resp : FreeBusyResp) : FreeBusyResp :=
  ⟨resp.calendars.map fun c => (c.1, c.2.filter fun b => (parseBusyEntry parse b).isSome)⟩

/-! ## The Booking store (`app/models.py`, `app/crud.py`)

The database session is a list of `Booking` rows; a committed write
replaces/appends rows, a failed write leaves the list unchanged. -/

/-- The persisted `Booking` row of `app/models.py` (the surrogate integer
primary key `id` is omitted; rows are identified by the unique
`booking_ref`). The source field `end` is a Lean keyword, hence the
guillemets. -/
structure Booking where
  booking_ref : String
  idempotency_key : Option String := none
  customer_id : Option String := none
  agent_id : Option String := none
  calendar_id : String
  event_id : String
  service_id : String
  «start» : Nat
  «end» : Nat
  status : String
  paid : Bool := false
  created_at : Nat
  updated_at : Option Nat := none
deriving DecidableEq

/-- `crud.get_booking_by_ref`: first row whose `booking_ref` matches. -/
def get_booking_by_ref (store : List Booking) (booking_ref : String) : Option Booking :=
  store.find? fun b => b.booking_ref == booking_ref

/-- `crud.create_booking` (success path): build the row — generating
`booking_ref` when `none`, with `freshRef` standing for `uuid4().hex[:12]` —
append it and return it. `now` models `datetime.utcnow` for `created_at`. -/
def create_booking (store : List Booking) (booking_ref : Option String)
    (customer_id agent_id : Option String) (calendar_id event_id service_id : String)
    («start» «end» : Nat) (status : String) (idempotency_key : Option String)
    (paid : Bool) (freshRef : String) (now : Nat) : List Booking × Booking :=
  let ref := booking_ref.getD ("BK-" ++ freshRef)
  let b : Booking :=
    { booking_ref := ref, idempotency_key := idempotency_key, customer_id := customer_id,
      agent_id := agent_id, calendar_id := calendar_id, event_id := event_id,
      service_id := service_id, «start» := «start», «end» := «end», status := status,
      paid := paid, created_at := now, updated_at := none }
  (store ++ [b], b)

/-- Replace the first row whose `booking_ref` matches — the ORM commit of a
mutation of the row returned by `get_booking_by_ref`. -/
def setBooking : List Booking → String → Booking → List Booking
  | [], _, _ => []
  | x :: xs, ref, b =>
    if x.booking_ref == ref then b :: xs else x :: setBooking xs ref b

/-- `crud.update_booking_status`: look the row up by ref; if absent return
`none` and leave the store unchanged; otherwise set `status` and
`updated_at` and commit. -/
def update_booking_status (store : List Booking) (booking_ref status : String)
    (now : Nat) : List Booking × Option Booking :=
  match get_booking_by_ref store booking_ref with
  | none => (store, none)
  | some b =>
    let b' := { b with status := status, updated_at := some now }
    (setBooking store booking_ref b', some b')

/-- `crud.reschedule_booking`: look the row up by ref; if present set
`start`, `end`, `status := "rescheduled"`, `updated_at` and commit. -/
def reschedule_booking (store : List Booking) (booking_ref : String)
    (new_start new_end now : Nat) : List Booking × Option Booking :=
  match get_booking_by_ref store booking_ref with
  | none => (store, none)
  | some b =>
    let b' := { b with «start» := new_start, «end» := new_end,
                       status := "rescheduled", updated_at := some now }
    (setBooking store booking_ref b', some b')

/-- `crud.cancel_booking` = `update_booking_status _ _ "cancelled"`. -/
def cancel_booking (store : List Booking) (booking_ref : String) (now : Nat) :
    List Booking × Option Booking :=
  update_booking_status store booking_ref "cancelled" now

/-! ## Booking orchestration (`app/routers/schedule_routes.py`)

Each route is a function of the store, the (already JSON-parsed and
datetime-parsed) request, an oracle fixing the outcome of each external
calendar call and of each database write, and the clock. It returns the
route result, the store after the request, and the trace of external
calendar calls issued, in order. The fire-and-forget confirmation e-mails
are launched after the result is fixed and every enqueue error is caught,
so they are not part of the model. -/

/-- One call to the external Calendar Collaborator. -/
inductive ExtCall where
  | createEvent (calendar_id : String) («start» «end» : Nat)
  | updateEvent (calendar_id event_id : String) («start» «end» : Nat)
  | deleteEvent (calendar_id event_id : String)
deriving DecidableEq

/-- Outcomes of the external calendar calls: `createResult` is the created
event's id, or `none` for a raised error; `updateOk`/`deleteOk` tell
whether `update_event`/`delete_event` succeed. -/
structure CalendarOracle where
  createResult : Option String
  updateOk : Bool
  deleteOk : Bool
deriving DecidableEq

/-- Outcomes of the database writes: whether the insert of `create_booking`
and the update of `reschedule_booking`/`update_booking_status` commit. -/
structure DbOracle where
  insertOk : Bool
  updateOk : Bool
deriving DecidableEq

/-- The `customer` dict of the `/book` payload. -/
structure CustomerInfo where
  customer_id : Option String := none
  name : Option String := none
  email : Option String := none
  phone : Option String := none
deriving DecidableEq

/-- The `/book` payload after JSON and datetime parsing: `none` models a
missing field; `start`/`end` are the parsed instants. -/
structure BookRequest where
  customer : Option CustomerInfo := none
  calendar_id : String := "primary"
  «start» : Nat
  «end» : Nat
  service_id : Option String := none
  agent_id : Option String := none
  idempotency_key : Option String := none
  booking_ref : Option String := none
  paid : Bool := false
deriving DecidableEq

/-- Results of the `/book` route. -/
inductive BookResult where
  | ok (booking : Booking)
  | missingFields
  | endMustBeAfterStart
  | calendarCreateFailed
  | dbCreateFailed
deriving DecidableEq

/-- The `/book` body after the idempotency check: create the external
event; on failure return `calendarCreateFailed` with nothing persisted.
On success insert the row; if the insert fails, attempt exactly one
compensating `delete_event` with the created event's id — a failure of
that delete is only logged — and return `dbCreateFailed`. -/
def bookMain (store : List Booking) (req : BookRequest) (customer : CustomerInfo)
    (service_id : String) (cal : CalendarOracle) (db : DbOracle) (now : Nat) :
    BookResult × List Booking × List ExtCall :=
  match cal.createResult with
  | none => (.calendarCreateFailed, store, [.createEvent req.calendar_id req.«start» req.«end»])
  | some event_id =>
    if db.insertOk then
      let (store', booking) := create_booking store req.booking_ref
        (customer.customer_id <|> customer.phone <|> customer.email) req.agent_id
        req.calendar_id event_id service_id req.«start» req.«end» "confirmed"
        req.idempotency_key req.paid (toString now) now
      (.ok booking, store', [.createEvent req.calendar_id req.«start» req.«end»])
    else
      (.dbCreateFailed, store,
        [.createEvent req.calendar_id req.«start» req.«end»,
         .deleteEvent req.calendar_id event_id])

/-- The `/book` route: validate the fields and the time range, then run the
idempotency check — `crud.get_booking_by_ref` applied to the supplied
`idempotency_key`, i.e. the key is compared against stored `booking_ref`s —
returning the found booking with no external call and no write; otherwise
proceed with `bookMain`. -/
def book (store : List Booking) (req : BookRequest) (cal : CalendarOracle)
    (db : DbOracle) (now : Nat) : BookResult × List Booking × List ExtCall :=
  match req.customer, req.service_id with
  | none, _ => (.missingFields, store, [])
  | _, none => (.missingFields, store, [])
  | some customer, some service_id =>
    if req.«end» ≤ req.«start» then
      (.endMustBeAfterStart, store, [])
    else
      match req.idempotency_key with
      | some key =>
        match get_booking_by_ref store key with
        | some existing => (.ok existing, store, [])
        | none => bookMain store req customer service_id cal db now
      | none => bookMain store req customer service_id cal db now

/-- Results of the `/reschedule` route. -/
inductive RescheduleResult where
  | ok (booking : Booking)
  | endMustBeAfterStart
  | bookingNotFound
  | calendarUpdateFailed
  | dbUpdateFailed
deriving DecidableEq

/-- The `/reschedule` route (after field presence/parse validation):
validate the range, look the booking up, update the external event first
— on failure abort with `calendarUpdateFailed`, local record untouched —
then commit the local reschedule; a failed commit yields `dbUpdateFailed`
without external compensation. -/
def reschedule (store : List Booking) (booking_ref : String)
    (new_start new_end : Nat) (cal : CalendarOracle) (db : DbOracle) (now : Nat) :
    RescheduleResult × List Booking × List ExtCall :=
  if new_end ≤ new_start then
    (.endMustBeAfterStart, store, [])
  else
    match get_booking_by_ref store booking_ref with
    | none => (.bookingNotFound, store, [])
    | some booking =>
      let calls := [ExtCall.updateEvent booking.calendar_id booking.event_id new_start new_end]
      if cal.updateOk then
        if db.updateOk then
          match reschedule_booking store booking_ref new_start new_end now with
          | (store', some updated) => (.ok updated, store', calls)
          | (store', none) => (.bookingNotFound, store', calls)
        else
          (.dbUpdateFailed, store, calls)
      else
        (.calendarUpdateFailed, store, calls)

/-- Results of the `/cancel` route. -/
inductive CancelResult where
  | ok (booking : Booking)
  | bookingNotFound
  | dbUpdateFailed
deriving DecidableEq

/-- The `/cancel` route (after validation): look the booking up, attempt
the external `delete_event` — its outcome is only logged and never read,
so the oracle's `deleteOk` does not occur on the right-hand side — then
mark the local record cancelled. -/
def cancel (store : List Booking) (booking_ref : String) (cal : CalendarOracle)
    (db : DbOracle) (now : Nat) : CancelResult × List Booking × List ExtCall :=
  match get_booking_by_ref store booking_ref with
  | none => (.bookingNotFound, store, [])
  | some booking =>
    let calls := [ExtCall.deleteEvent booking.calendar_id booking.event_id]
    if db.updateOk then
      match update_booking_status store booking_ref "cancelled" now with
      | (store', some cancelled) => (.ok cancelled, store', calls)
      | (store', none) => (.bookingNotFound, store', calls)
    else
      (.dbUpdateFailed, store, calls)

/-! ## Helper lemmas -/

theorem mem_of_getLast?_eq {α : Type _} {l : List α} {a : α} (h : l.getLast? = some a) :
    a ∈ l := by
  induction l with
  | nil => simp at h
  | cons x xs ih =>
    cases xs with
    | nil =>
      simp only [List.getLast?_singleton, Option.some.injEq] at h
      simp [h]
    | cons y ys =>
      rw [List.getLast?_cons_cons] at h
      exact List.mem_cons_of_mem _ (ih h)

/-! ## Slot generation lemmas -/

/-- Every packed slot has length exactly `dur` and lies in `[t, limit]`. -/
theorem packSlots_mem (t limit dur : Nat) :
    ∀ s ∈ packSlots t limit dur, s.2 = s.1 + dur ∧ t ≤ s.1 ∧ s.2 ≤ limit := by
  induction t, limit, dur using packSlots.induct with
  | case1 t limit dur h ih =>
    intro s hs
    rw [packSlots, dif_pos h] at hs
    rcases List.mem_cons.mp hs with rfl | hs
    · exact ⟨rfl, Nat.le_refl _, h.2⟩
    · obtain ⟨h1, h2, h3⟩ := ih s hs
      exact ⟨h1, by omega, h3⟩
  | case2 t limit dur h =>
    intro s hs
    rw [packSlots, dif_neg h] at hs
    simp at hs

/-- Packed slots are consecutive: each ends no later than the next starts. -/
theorem packSlots_chain (t limit dur : Nat) :
    List.Chain' (fun a b : Interval => a.2 ≤ b.1) (packSlots t limit dur) := by
  induction t, limit, dur using packSlots.induct with
  | case1 t limit dur h ih =>
    rw [packSlots, dif_pos h]
    refine List.chain'_cons'.mpr ⟨?_, ih⟩
    intro y hy
    have hmem := List.mem_of_mem_head? hy
    exact (packSlots_mem _ _ _ y hmem).2.1
  | case2 t limit dur h =>
    rw [packSlots, dif_neg h]
    exact List.chain'_nil

/-- No slot fits when the window is already exhausted. -/
theorem packSlots_eq_nil {t limit dur : Nat} (h : limit < t + dur) :
    packSlots t limit dur = [] := by
  rw [packSlots, dif_neg]
  omega

/-- Every generated slot has length exactly `dur` and starts at or after
the cursor. -/
theorem freeSlotsGo_mem (merged : List Interval) (current endDt dur : Nat) :
    ∀ s ∈ freeSlotsGo merged current endDt dur, s.2 = s.1 + dur ∧ current ≤ s.1 := by
  induction merged generalizing current with
  | nil =>
    intro s hs
    obtain ⟨h1, h2, _⟩ := packSlots_mem current endDt dur s hs
    exact ⟨h1, h2⟩
  | cons b rest ih =>
    obtain ⟨bstart, bend⟩ := b
    intro s hs
    rcases List.mem_append.mp hs with hs | hs
    · by_cases hcb : current < bstart
      · rw [if_pos hcb] at hs
        obtain ⟨h1, h2, _⟩ := packSlots_mem current bstart dur s hs
        exact ⟨h1, h2⟩
      · rw [if_neg hcb] at hs
        simp at hs
    · obtain ⟨h1, h2⟩ := ih (max current bend) s hs
      exact ⟨h1, by omega⟩

/-- If every busy interval starts at or before `we`, every generated slot
ends at or before `we`. -/
theorem freeSlotsGo_ub (merged : List Interval) (current we dur : Nat)
    (hb : ∀ x ∈ merged, x.1 ≤ we) :
    ∀ s ∈ freeSlotsGo merged current we dur, s.2 ≤ we := by
  induction merged generalizing current with
  | nil =>
    intro s hs
    exact (packSlots_mem current we dur s hs).2.2
  | cons b rest ih =>
    obtain ⟨bstart, bend⟩ := b
    intro s hs
    rcases List.mem_append.mp hs with hs | hs
    · by_cases hcb : current < bstart
      · rw [if_pos hcb] at hs
        have h3 := (packSlots_mem current bstart dur s hs).2.2
        have : bstart ≤ we := hb (bstart, bend) (List.mem_cons_self _ _)
        omega
      · rw [if_neg hcb] at hs
        simp at hs
    · exact ih (max current bend) (fun x hx => hb x (List.mem_cons_of_mem _ hx)) s hs

/-- No generated slot overlaps any busy interval, provided the busy
intervals are proper and pairwise separated. -/
theorem freeSlotsGo_disjoint (merged : List Interval) (current endDt dur : Nat)
    (hpair : List.Pairwise (fun a b : Interval => a.2 < b.1) merged)
    (hproper : ∀ x ∈ merged, x.1 < x.2) :
    ∀ s ∈ freeSlotsGo merged current endDt dur, ∀ b ∈ merged, s.2 ≤ b.1 ∨ b.2 ≤ s.1 := by
  induction merged generalizing current with
  | nil =>
    intro s _ b hb
    simp at hb
  | cons hd rest ih =>
    obtain ⟨bstart, bend⟩ := hd
    intro s hs b hb
    rcases List.mem_append.mp hs with hs | hs
    · by_cases hcb : current < bstart
      · rw [if_pos hcb] at hs
        have hend := (packSlots_mem current bstart dur s hs).2.2
        rcases List.mem_cons.mp hb with rfl | hb
        · exact Or.inl hend
        · left
          have hgap := (List.pairwise_cons.mp hpair).1 b hb
          have hp := hproper (bstart, bend) (List.mem_cons_self _ _)
          simp only at hgap hp
          omega
      · rw [if_neg hcb] at hs
        simp at hs
    · rcases List.mem_cons.mp hb with rfl | hb
      · right
        have := (freeSlotsGo_mem rest (max current bend) endDt dur s hs).2
        omega
      · exact ih (max current bend) (List.pairwise_cons.mp hpair).2
          (fun x hx => hproper x (List.mem_cons_of_mem _ hx)) s hs b hb

/-- The generated slots are pairwise non-overlapping in ascending order:
each ends no later than the next starts. -/
theorem freeSlotsGo_chain (merged : List Interval) (current endDt dur : Nat)
    (hproper : ∀ x ∈ merged, x.1 < x.2) :
    List.Chain' (fun a b : Interval => a.2 ≤ b.1) (freeSlotsGo merged current endDt dur) := by
  induction merged generalizing current with
  | nil => exact packSlots_chain current endDt dur
  | cons hd rest ih =>
    obtain ⟨bstart, bend⟩ := hd
    refine List.chain'_append.mpr ⟨?_, ?_, ?_⟩
    · by_cases hcb : current < bstart
      · rw [if_pos hcb]; exact packSlots_chain current bstart dur
      · rw [if_neg hcb]; exact List.chain'_nil
    · exact ih (max current bend) (fun x hx => hproper x (List.mem_cons_of_mem _ hx))
    · intro x hx y hy
      have hy' := List.mem_of_mem_head? hy
      have hys := (freeSlotsGo_mem rest (max current bend) endDt dur y hy').2
      have hx' : x ∈ (if current < bstart then packSlots current bstart dur else []) :=
        mem_of_getLast?_eq hx
      by_cases hcb : current < bstart
      · rw [if_pos hcb] at hx'
        have hxe := (packSlots_mem current bstart dur x hx').2.2
        have hp : bstart < bend := hproper (bstart, bend) (List.mem_cons_self _ _)
        omega
      · rw [if_neg hcb] at hx'
        simp at hx'

/-! ## Interval merger lemmas -/

/-- In a gap-chained list of proper intervals, the head ends strictly
before every later interval starts. -/
theorem chain_gap_head (x : Interval) (l : List Interval)
    (hp : ∀ b ∈ l, b.1 < b.2)
    (hc : List.Chain' (fun a b : Interval => a.2 < b.1) (x :: l)) :
    ∀ b ∈ l, x.2 < b.1 := by
  induction l generalizing x with
  | nil => intro b hb; simp at hb
  | cons y ys ih =>
    intro b hb
    have hxy : x.2 < y.1 := (List.chain'_cons.mp hc).1
    rcases List.mem_cons.mp hb with rfl | hb
    · exact hxy
    · have hy2 := ih y (fun c hc' => hp c (List.mem_cons_of_mem _ hc'))
        (List.chain'_cons.mp hc).2 b hb
      have hyp : y.1 < y.2 := hp y (List.mem_cons_self _ _)
      omega

/-- A gap-chained list of proper intervals is pairwise gap-separated. -/
theorem pairwise_gap_of_chain (l : List Interval)
    (hp : ∀ b ∈ l, b.1 < b.2)
    (hc : List.Chain' (fun a b : Interval => a.2 < b.1) l) :
    List.Pairwise (fun a b : Interval => a.2 < b.1) l := by
  induction l with
  | nil => simp
  | cons x xs ih =>
    refine List.pairwise_cons.mpr ⟨?_, ih (fun b hb => hp b (List.mem_cons_of_mem _ hb)) hc.tail⟩
    exact chain_gap_head x xs (fun b hb => hp b (List.mem_cons_of_mem _ hb)) hc

/-- The merging fold's first output starts where `cur` starts and ends at
or after `cur`'s end. -/
theorem mergeGo_head (cur : Interval) (l : List Interval) :
    ∃ e tl, mergeGo cur l = (cur.1, e) :: tl ∧ cur.2 ≤ e := by
  induction l generalizing cur with
  | nil =>
    refine ⟨cur.2, [], ?_, Nat.le_refl _⟩
    simp [mergeGo]
  | cons b rest ih =>
    by_cases hb : b.1 ≤ cur.2
    · obtain ⟨e, tl, heq, hle⟩ := ih (cur.1, max cur.2 b.2)
      refine ⟨e, tl, ?_, le_trans (le_max_left _ _) hle⟩
      simp only [mergeGo, if_pos hb]
      exact heq
    · refine ⟨cur.2, mergeGo b rest, ?_, Nat.le_refl _⟩
      simp [mergeGo, if_neg hb]

/-- The merging fold preserves properness of intervals. -/
theorem mergeGo_proper (cur : Interval) (l : List Interval)
    (hcur : cur.1 < cur.2) (hl : ∀ x ∈ l, x.1 < x.2) :
    ∀ y ∈ mergeGo cur l, y.1 < y.2 := by
  induction l generalizing cur with
  | nil =>
    intro y hy
    simp only [mergeGo, List.mem_singleton] at hy
    exact hy ▸ hcur
  | cons b rest ih =>
    intro y hy
    by_cases hb : b.1 ≤ cur.2
    · simp only [mergeGo, if_pos hb] at hy
      exact ih (cur.1, max cur.2 b.2) (lt_of_lt_of_le hcur (le_max_left _ _))
        (fun x hx => hl x (List.mem_cons_of_mem _ hx)) y hy
    · simp only [mergeGo, if_neg hb] at hy
      rcases List.mem_cons.mp hy with rfl | hy
      · exact hcur
      · exact ih b (hl b (List.mem_cons_self _ _))
          (fun x hx => hl x (List.mem_cons_of_mem _ hx)) y hy

/-- The merged output is gap-chained: each merged interval ends strictly
before the next starts (touching inputs merge, so no gap is zero-length). -/
theorem mergeGo_chain (cur : Interval) (l : List Interval) :
    List.Chain' (fun a b : Interval => a.2 < b.1) (mergeGo cur l) := by
  induction l generalizing cur with
  | nil => simp [mergeGo]
  | cons b rest ih =>
    by_cases hb : b.1 ≤ cur.2
    · simp only [mergeGo, if_pos hb]
      exact ih (cur.1, max cur.2 b.2)
    · simp only [mergeGo, if_neg hb]
      refine List.chain'_cons'.mpr ⟨?_, ih b⟩
      intro y hy
      obtain ⟨e, tl, heq, _⟩ := mergeGo_head b rest
      rw [heq] at hy
      simp only [List.head?_cons, Option.mem_def, Option.some.injEq] at hy
      rw [← hy]
      omega

/-- Every interval fed to the merging fold is contained in some output
interval. -/
theorem mergeGo_covers (cur : Interval) (l : List Interval)
    (hfirst : ∀ x ∈ l, cur.1 ≤ x.1)
    (hsorted : List.Pairwise startLe l) :
    ∀ x, (x = cur ∨ x ∈ l) → ∃ y ∈ mergeGo cur l, y.1 ≤ x.1 ∧ x.2 ≤ y.2 := by
  induction l generalizing cur with
  | nil =>
    intro x hx
    rcases hx with rfl | hx
    · exact ⟨x, by simp [mergeGo], Nat.le_refl _, Nat.le_refl _⟩
    · simp at hx
  | cons b rest ih =>
    have hcb : cur.1 ≤ b.1 := hfirst b (List.mem_cons_self _ _)
    have hbrest : ∀ x ∈ rest, b.1 ≤ x.1 := fun x hx =>
      (List.pairwise_cons.mp hsorted).1 x hx
    intro x hx
    by_cases hb : b.1 ≤ cur.2
    · have ih' := ih (cur.1, max cur.2 b.2)
        (fun x hx => le_trans hcb (hbrest x hx)) (List.pairwise_cons.mp hsorted).2
      obtain ⟨y, hy, hy1, hy2⟩ := ih' (cur.1, max cur.2 b.2) (Or.inl rfl)
      simp only at hy1 hy2
      rcases hx with rfl | hx
      · refine ⟨y, ?_, hy1, le_trans (le_max_left _ _) hy2⟩
        simp only [mergeGo, if_pos hb]
        exact hy
      · rcases List.mem_cons.mp hx with rfl | hx
        · refine ⟨y, ?_, le_trans hy1 hcb, le_trans (le_max_right _ _) hy2⟩
          simp only [mergeGo, if_pos hb]
          exact hy
        · obtain ⟨y', hy', h1', h2'⟩ := ih' x (Or.inr hx)
          refine ⟨y', ?_, h1', h2'⟩
          simp only [mergeGo, if_pos hb]
          exact hy'
    · rcases hx with rfl | hx
      · refine ⟨x, ?_, Nat.le_refl _, Nat.le_refl _⟩
        simp [mergeGo, if_neg hb]
      · obtain ⟨y, hy, h1, h2⟩ := ih b hbrest (List.pairwise_cons.mp hsorted).2 x
          (List.mem_cons.mp hx)
        refine ⟨y, ?_, h1, h2⟩
        simp only [mergeGo, if_neg hb]
        exact List.mem_cons_of_mem _ hy

/-- Every endpoint of a merged interval is an endpoint of some input
interval (outputs span exactly the inputs they absorb). -/
theorem mergeGo_endpoints (cur : Interval) (l : List Interval) :
    ∀ y ∈ mergeGo cur l,
      (∃ a, (a = cur ∨ a ∈ l) ∧ y.1 = a.1) ∧ (∃ a, (a = cur ∨ a ∈ l) ∧ y.2 = a.2) := by
  induction l generalizing cur with
  | nil =>
    intro y hy
    simp only [mergeGo, List.mem_singleton] at hy
    exact ⟨⟨cur, Or.inl rfl, by rw [hy]⟩, ⟨cur, Or.inl rfl, by rw [hy]⟩⟩
  | cons b rest ih =>
    intro y hy
    by_cases hb : b.1 ≤ cur.2
    · simp only [mergeGo, if_pos hb] at hy
      obtain ⟨⟨a1, ha1, he1⟩, ⟨a2, ha2, he2⟩⟩ := ih (cur.1, max cur.2 b.2) y hy
      constructor
      · rcases ha1 with rfl | ha1
        · exact ⟨cur, Or.inl rfl, he1⟩
        · exact ⟨a1, Or.inr (List.mem_cons_of_mem _ ha1), he1⟩
      · rcases ha2 with rfl | ha2
        · rcases Nat.le_total cur.2 b.2 with hm | hm
          · exact ⟨b, Or.inr (List.mem_cons_self _ _), by rw [he2]; simp [Nat.max_eq_right hm]⟩
          · exact ⟨cur, Or.inl rfl, by rw [he2]; simp [Nat.max_eq_left hm]⟩
        · exact ⟨a2, Or.inr (List.mem_cons_of_mem _ ha2), he2⟩
    · simp only [mergeGo, if_neg hb] at hy
      rcases List.mem_cons.mp hy with rfl | hy
      · exact ⟨⟨y, Or.inl rfl, rfl⟩, ⟨y, Or.inl rfl, rfl⟩⟩
      · obtain ⟨⟨a1, ha1, he1⟩, ⟨a2, ha2, he2⟩⟩ := ih b y hy
        constructor
        · rcases ha1 with rfl | ha1
          · exact ⟨a1, Or.inr (List.mem_cons_self _ _), he1⟩
          · exact ⟨a1, Or.inr (List.mem_cons_of_mem _ ha1), he1⟩
        · rcases ha2 with rfl | ha2
          · exact ⟨a2, Or.inr (List.mem_cons_self _ _), he2⟩
          · exact ⟨a2, Or.inr (List.mem_cons_of_mem _ ha2), he2⟩

/-- With an exhausted window (`we ≤ current`) and every busy interval
starting at or before the cursor, no slot is generated. -/
theorem freeSlotsGo_eq_nil (merged : List Interval) (current we dur : Nat)
    (hdur : 0 < dur) (hwe : we ≤ current) (hb : ∀ x ∈ merged, x.1 ≤ current) :
    freeSlotsGo merged current we dur = [] := by
  induction merged generalizing current with
  | nil => exact packSlots_eq_nil (by omega)
  | cons hd rest ih =>
    obtain ⟨bstart, bend⟩ := hd
    have h1 : ¬ current < bstart := by
      have := hb (bstart, bend) (List.mem_cons_self _ _)
      simp only at this
      omega
    rw [freeSlotsGo, if_neg h1, List.nil_append]
    exact ih (max current bend) (by omega)
      (fun x hx => le_trans (hb x (List.mem_cons_of_mem _ hx)) (le_max_left _ _))

/-! ## Claim C5: merge correctness -/

/-- C5: for every finite collection of busy intervals with `start < end`,
the merger's output is sorted ascending by start and pairwise gap-separated
(so overlapping or touching inputs are merged); every input interval is
contained in exactly one output interval; any two overlapping-or-touching
inputs land in one common output spanning their minimum start and maximum
end; and every output endpoint is an endpoint of some input. -/
theorem merge_correctness (busy : List Interval) (h : ∀ x ∈ busy, x.1 < x.2) :
    List.Pairwise (fun a b : Interval => a.1 < b.1) (mergeIntervals busy) ∧
    List.Pairwise (fun a b : Interval => a.2 < b.1) (mergeIntervals busy) ∧
    (∀ x ∈ busy, ∃! y, y ∈ mergeIntervals busy ∧ y.1 ≤ x.1 ∧ x.2 ≤ y.2) ∧
    (∀ a ∈ busy, ∀ b ∈ busy, b.1 ≤ a.2 → a.1 ≤ b.2 →
      ∃ y ∈ mergeIntervals busy, y.1 ≤ min a.1 b.1 ∧ max a.2 b.2 ≤ y.2) ∧
    (∀ y ∈ mergeIntervals busy, (∃ a ∈ busy, y.1 = a.1) ∧ (∃ a ∈ busy, y.2 = a.2)) := by
  have hperm : (sortByStart busy).Perm busy := List.perm_insertionSort startLe busy
  have hsorted : List.Pairwise startLe (sortByStart busy) := List.sorted_insertionSort startLe busy
  have hmem : ∀ x : Interval, x ∈ sortByStart busy ↔ x ∈ busy := fun x => hperm.mem_iff
  rcases hs : sortByStart busy with _ | ⟨a, rest⟩
  · have hout : mergeIntervals busy = [] := by
      unfold mergeIntervals
      rw [hs]
    have hbm : ∀ x : Interval, x ∈ busy → False := by
      intro x hx
      have := (hmem x).mpr hx
      rw [hs] at this
      simp at this
    rw [hout]
    refine ⟨List.Pairwise.nil, List.Pairwise.nil, ?_, ?_, ?_⟩
    · intro x hx; exact (hbm x hx).elim
    · intro a ha; exact (hbm a ha).elim
    · intro y hy; simp at hy
  · have hout : mergeIntervals busy = mergeGo a rest := by
      unfold mergeIntervals
      rw [hs]
    have hsorted' : List.Pairwise startLe (a :: rest) := hs ▸ hsorted
    have hp' : ∀ x ∈ a :: rest, x.1 < x.2 := by
      intro x hx
      exact h x ((hmem x).mp (by rw [hs]; exact hx))
    have ha : a.1 < a.2 := hp' a (List.mem_cons_self _ _)
    have hrest : ∀ x ∈ rest, x.1 < x.2 := fun x hx => hp' x (List.mem_cons_of_mem _ hx)
    have hfirst : ∀ x ∈ rest, a.1 ≤ x.1 := fun x hx => (List.pairwise_cons.mp hsorted').1 x hx
    have hproperOut : ∀ y ∈ mergeGo a rest, y.1 < y.2 := mergeGo_proper a rest ha hrest
    have hgapPair : List.Pairwise (fun p q : Interval => p.2 < q.1) (mergeGo a rest) :=
      pairwise_gap_of_chain _ hproperOut (mergeGo_chain a rest)
    have hbusyMem : ∀ x : Interval, x ∈ busy → x = a ∨ x ∈ rest := by
      intro x hx
      have := (hmem x).mpr hx
      rw [hs] at this
      exact List.mem_cons.mp this
    have hcover := mergeGo_covers a rest hfirst (List.pairwise_cons.mp hsorted').2
    have huniq : ∀ x : Interval, x.1 < x.2 →
        ∀ y ∈ mergeGo a rest, ∀ y' ∈ mergeGo a rest,
        y.1 ≤ x.1 → x.2 ≤ y.2 → y'.1 ≤ x.1 → x.2 ≤ y'.2 → y' = y := by
      intro x hx y hy y' hy' h1 h2 h1' h2'
      by_contra hne
      have hsym : Symmetric (fun p q : Interval => p.2 < q.1 ∨ q.2 < p.1) :=
        fun p q hpq => hpq.elim Or.inr Or.inl
      have hp2 : List.Pairwise (fun p q : Interval => p.2 < q.1 ∨ q.2 < p.1) (mergeGo a rest) :=
        hgapPair.imp fun hpq => Or.inl hpq
      rcases hp2.forall hsym hy' hy hne with hgap | hgap
      · omega
      · omega
    rw [hout]
    refine ⟨?_, hgapPair, ?_, ?_, ?_⟩
    · refine hgapPair.imp_of_mem ?_
      intro p q hp _ hpq
      have := hproperOut p hp
      omega
    · intro x hx
      obtain ⟨y, hy, h1, h2⟩ := hcover x (hbusyMem x hx)
      refine ⟨y, ⟨hy, h1, h2⟩, ?_⟩
      intro y' ⟨hy', h1', h2'⟩
      exact huniq x (h x hx) y hy y' hy' h1 h2 h1' h2'
    · intro p hp q hq hq1 hp1
      obtain ⟨yp, hyp, hp1', hp2'⟩ := hcover p (hbusyMem p hp)
      obtain ⟨yq, hyq, hq1', hq2'⟩ := hcover q (hbusyMem q hq)
      have heq : yq = yp := by
        by_contra hne
        have hsym : Symmetric (fun u v : Interval => u.2 < v.1 ∨ v.2 < u.1) :=
          fun u v huv => huv.elim Or.inr Or.inl
        have hp2 : List.Pairwise (fun u v : Interval => u.2 < v.1 ∨ v.2 < u.1) (mergeGo a rest) :=
          hgapPair.imp fun huv => Or.inl huv
        rcases hp2.forall hsym hyq hyp hne with hgap | hgap
        · omega
        · omega
      subst heq
      exact ⟨yq, hyq, le_min hp1' hq1', max_le hp2' hq2'⟩
    · intro y hy
      obtain ⟨⟨a1, ha1, he1⟩, ⟨a2, ha2, he2⟩⟩ := mergeGo_endpoints a rest y hy
      have hback : ∀ z : Interval, z = a ∨ z ∈ rest → z ∈ busy := by
        intro z hz
        refine (hmem z).mp ?_
        rw [hs]
        exact List.mem_cons.mpr hz
      exact ⟨⟨a1, hback a1 ha1, he1⟩, ⟨a2, hback a2 ha2, he2⟩⟩

/-- Witness for C5 at a concrete input containing overlapping, touching and
separated intervals. -/
theorem merge_correctness_witness :
    List.Pairwise (fun a b : Interval => a.1 < b.1) (mergeIntervals [(10, 20), (0, 5), (5, 8), (19, 30)]) ∧
    List.Pairwise (fun a b : Interval => a.2 < b.1) (mergeIntervals [(10, 20), (0, 5), (5, 8), (19, 30)]) ∧
    (∀ x ∈ [((10 : Nat), (20 : Nat)), (0, 5), (5, 8), (19, 30)],
      ∃! y, y ∈ mergeIntervals [(10, 20), (0, 5), (5, 8), (19, 30)] ∧ y.1 ≤ x.1 ∧ x.2 ≤ y.2) ∧
    (∀ a ∈ [((10 : Nat), (20 : Nat)), (0, 5), (5, 8), (19, 30)],
      ∀ b ∈ [((10 : Nat), (20 : Nat)), (0, 5), (5, 8), (19, 30)], b.1 ≤ a.2 → a.1 ≤ b.2 →
      ∃ y ∈ mergeIntervals [(10, 20), (0, 5), (5, 8), (19, 30)],
        y.1 ≤ min a.1 b.1 ∧ max a.2 b.2 ≤ y.2) ∧
    (∀ y ∈ mergeIntervals [(10, 20), (0, 5), (5, 8), (19, 30)],
      (∃ a ∈ [((10 : Nat), (20 : Nat)), (0, 5), (5, 8), (19, 30)], y.1 = a.1) ∧
      (∃ a ∈ [((10 : Nat), (20 : Nat)), (0, 5), (5, 8), (19, 30)], y.2 = a.2)) :=
  merge_correctness [(10, 20), (0, 5), (5, 8), (19, 30)] (by decide)

/-! ## Claim C2: slot correctness -/

/-- C2 (amended): over any gap-separated list of proper merged busy
intervals, a working window and a positive duration, every emitted slot has
length exactly `dur`, overlaps no busy interval, and starts at or after
`work_start`; the slots are pairwise non-overlapping in ascending order;
and — provided every busy interval starts at or before `work_end` — no
slot ends after `work_end`. (Without that proviso the end bound fails,
see the counterexample.) -/
theorem slot_correctness (merged : List Interval) (work_start work_end dur : Nat)
    (hdur : 0 < dur)
    (hpair : List.Pairwise (fun a b : Interval => a.2 < b.1) merged)
    (hproper : ∀ x ∈ merged, x.1 < x.2) :
    (∀ s ∈ computeSlots merged work_start work_end dur, s.2 = s.1 + dur) ∧
    (∀ s ∈ computeSlots merged work_start work_end dur, ∀ b ∈ merged, s.2 ≤ b.1 ∨ b.2 ≤ s.1) ∧
    (∀ s ∈ computeSlots merged work_start work_end dur, work_start ≤ s.1) ∧
    List.Chain' (fun a b : Interval => a.2 ≤ b.1) (computeSlots merged work_start work_end dur) ∧
    ((∀ b ∈ merged, b.1 ≤ work_end) →
      ∀ s ∈ computeSlots merged work_start work_end dur, s.2 ≤ work_end) := by
  refine ⟨?_, ?_, ?_, ?_, ?_⟩
  · intro s hs
    exact (freeSlotsGo_mem merged work_start work_end dur s hs).1
  · exact freeSlotsGo_disjoint merged work_start work_end dur hpair hproper
  · intro s hs
    exact (freeSlotsGo_mem merged work_start work_end dur s hs).2
  · exact freeSlotsGo_chain merged work_start work_end dur hproper
  · intro hb
    exact freeSlotsGo_ub merged work_start work_end dur hb

/-- C2 counterexample: with merged busy `[(1080, 1140)]` (a proper interval,
`18:00–19:00` in minutes), working window `540–1020` (`9:00–17:00`) and
duration `30`, the generator emits the slot `(1050, 1080)`, which ends
after `work_end = 1020` — refuting the claim's unconditional
"no emitted slot ends after `work_end`". -/
theorem slot_correctness_counterexample :
    (0 : Nat) < 30 ∧ (1080 : Nat) < 1140 ∧
    (1050, 1080) ∈ computeSlots [(1080, 1140)] 540 1020 30 ∧ (1020 : Nat) < 1080 := by
  refine ⟨by omega, by omega, ?_, by omega⟩
  simp +decide [computeSlots, freeSlotsGo, packSlots]

/-- Witness for C2 at the spec's own scenario: busy `[(540, 555)]`, window
`540–600`, duration `30`. -/
theorem slot_correctness_witness :
    (∀ s ∈ computeSlots [(540, 555)] 540 600 30, s.2 = s.1 + 30) ∧
    (∀ s ∈ computeSlots [(540, 555)] 540 600 30,
      ∀ b ∈ [((540 : Nat), (555 : Nat))], s.2 ≤ b.1 ∨ b.2 ≤ s.1) ∧
    (∀ s ∈ computeSlots [(540, 555)] 540 600 30, 540 ≤ s.1) ∧
    List.Chain' (fun a b : Interval => a.2 ≤ b.1) (computeSlots [(540, 555)] 540 600 30) ∧
    ((∀ b ∈ [((540 : Nat), (555 : Nat))], b.1 ≤ 600) →
      ∀ s ∈ computeSlots [(540, 555)] 540 600 30, s.2 ≤ 600) :=
  slot_correctness [(540, 555)] 540 600 30 (by decide) (by decide) (by decide)

/-! ## Claim C4: empty working window -/

/-- C4 (amended): with `work_end ≤ work_start`, a positive duration, and
no busy interval starting after `work_start`, the generator returns no
slots (and, being a total function, raises no error). The extra busy-start
condition is forced: a busy interval starting after `work_start` makes the
pre-busy packing loop emit slots even though `work_end ≤ work_start`, see
the counterexample. -/
theorem empty_window (merged : List Interval) (work_start work_end dur : Nat)
    (hdur : 0 < dur) (hwe : work_end ≤ work_start)
    (hb : ∀ x ∈ merged, x.1 ≤ work_start) :
    computeSlots merged work_start work_end dur = [] :=
  freeSlotsGo_eq_nil merged work_start work_end dur hdur hwe hb

/-- C4 counterexample: `work_start = 1020`, `work_end = 540` (so
`work_end ≤ work_start`), busy `[(1080, 1140)]`, duration `30`: the
generator emits two slots instead of none. -/
theorem empty_window_counterexample :
    (540 : Nat) ≤ 1020 ∧ computeSlots [(1080, 1140)] 1020 540 30 ≠ [] := by
  refine ⟨by omega, ?_⟩
  simp +decide [computeSlots, freeSlotsGo, packSlots]

/-- Witness for C4 (amended). -/
theorem empty_window_witness :
    computeSlots [(300, 400)] 540 540 30 = [] :=
  empty_window [(300, 400)] 540 540 30 (by decide) (by decide) (by decide)

/-! ## Booking store lemmas -/

/-- A booking found by ref carries that ref. -/
theorem get_booking_by_ref_eq {store : List Booking} {ref : String} {b : Booking}
    (h : get_booking_by_ref store ref = some b) : b.booking_ref = ref := by
  have hp := List.find?_some h
  exact eq_of_beq hp

/-- Replacing a row preserves the number of rows (no row is deleted). -/
theorem setBooking_length (store : List Booking) (ref : String) (b : Booking) :
    (setBooking store ref b).length = store.length := by
  induction store with
  | nil => rfl
  | cons x xs ih =>
    by_cases hx : x.booking_ref == ref
    · simp [setBooking, hx]
    · simp [setBooking, hx, ih]

/-- After replacing the row found under `ref` by a row that carries `ref`,
looking `ref` up returns the new row. -/
theorem get_setBooking {store : List Booking} {ref : String} {b b' : Booking}
    (hmem : get_booking_by_ref store ref = some b) (href : b'.booking_ref = ref) :
    get_booking_by_ref (setBooking store ref b') ref = some b' := by
  induction store with
  | nil => simp [get_booking_by_ref, List.find?] at hmem
  | cons x xs ih =>
    by_cases hx : x.booking_ref == ref
    · simp only [setBooking, if_pos hx, get_booking_by_ref, List.find?, href,
        beq_self_eq_true]
    · simp only [get_booking_by_ref, List.find?, hx] at hmem
      simp only [setBooking, if_neg hx, get_booking_by_ref, List.find?, hx]
      exact ih hmem

/-! ## Claim C10: cancellation frame property -/

/-- C10: `cancel_booking` on an existing booking changes only `status`
(to `"cancelled"`) and `updated_at`; every other stored field is unchanged,
and the row is not deleted (the store keeps its length and still yields the
row under its ref). -/
theorem cancel_booking_frame (store : List Booking) (ref : String) (now : Nat) (b : Booking)
    (hb : get_booking_by_ref store ref = some b) :
    ∃ b', cancel_booking store ref now = (setBooking store ref b', some b') ∧
      b'.status = "cancelled" ∧ b'.updated_at = some now ∧
      b'.booking_ref = b.booking_ref ∧ b'.idempotency_key = b.idempotency_key ∧
      b'.customer_id = b.customer_id ∧ b'.agent_id = b.agent_id ∧
      b'.calendar_id = b.calendar_id ∧ b'.event_id = b.event_id ∧
      b'.service_id = b.service_id ∧ b'.«start» = b.«start» ∧ b'.«end» = b.«end» ∧
      b'.paid = b.paid ∧ b'.created_at = b.created_at ∧
      (cancel_booking store ref now).1.length = store.length ∧
      get_booking_by_ref (cancel_booking store ref now).1 ref = some b' := by
  refine ⟨{ b with status := "cancelled", updated_at := some now }, ?_, rfl, rfl, rfl, rfl,
    rfl, rfl, rfl, rfl, rfl, rfl, rfl, rfl, rfl, ?_, ?_⟩
  · simp only [cancel_booking, update_booking_status, hb]
  · simp only [cancel_booking, update_booking_status, hb]
    exact setBooking_length store ref _
  · simp only [cancel_booking, update_booking_status, hb]
    exact @get_setBooking store ref b { b with status := "cancelled", updated_at := some now }
      hb (@get_booking_by_ref_eq store ref b hb)

/-- Witness for C10 at a one-row store. -/
theorem cancel_booking_frame_witness :
    ∃ b', cancel_booking
        [{ booking_ref := "r", idempotency_key := some "k", customer_id := some "c",
           agent_id := none, calendar_id := "primary", event_id := "e", service_id := "svc",
           «start» := 10, «end» := 20, status := "confirmed", paid := false,
           created_at := 0, updated_at := none }] "r" 7 =
      (setBooking
        [{ booking_ref := "r", idempotency_key := some "k", customer_id := some "c",
           agent_id := none, calendar_id := "primary", event_id := "e", service_id := "svc",
           «start» := 10, «end» := 20, status := "confirmed", paid := false,
           created_at := 0, updated_at := none }] "r" b', some b') ∧
      b'.status = "cancelled" ∧ b'.updated_at = some 7 ∧
      b'.booking_ref = "r" ∧ b'.idempotency_key = some "k" ∧
      b'.customer_id = some "c" ∧ b'.agent_id = none ∧
      b'.calendar_id = "primary" ∧ b'.event_id = "e" ∧
      b'.service_id = "svc" ∧ b'.«start» = 10 ∧ b'.«end» = 20 ∧
      b'.paid = false ∧ b'.created_at = 0 ∧
      (cancel_booking
        [{ booking_ref := "r", idempotency_key := some "k", customer_id := some "c",
           agent_id := none, calendar_id := "primary", event_id := "e", service_id := "svc",
           «start» := 10, «end» := 20, status := "confirmed", paid := false,
           created_at := 0, updated_at := none }] "r" 7).1.length = 1 ∧
      get_booking_by_ref (cancel_booking
        [{ booking_ref := "r", idempotency_key := some "k", customer_id := some "c",
           agent_id := none, calendar_id := "primary", event_id := "e", service_id := "svc",
           «start» := 10, «end» := 20, status := "confirmed", paid := false,
           created_at := 0, updated_at := none }] "r" 7).1 "r" = some b' :=
  cancel_booking_frame
    [{ booking_ref := "r", idempotency_key := some "k", customer_id := some "c",
       agent_id := none, calendar_id := "primary", event_id := "e", service_id := "svc",
       «start» := 10, «end» := 20, status := "confirmed", paid := false,
       created_at := 0, updated_at := none }] "r" 7
    { booking_ref := "r", idempotency_key := some "k", customer_id := some "c",
      agent_id := none, calendar_id := "primary", event_id := "e", service_id := "svc",
      «start» := 10, «end» := 20, status := "confirmed", paid := false,
      created_at := 0, updated_at := none } (by decide)

/-! ## Claim C3: cancelled is terminal -/

/-- C3 counterexample: on a store holding a booking with status
`"cancelled"`, `reschedule_booking` changes its status to `"rescheduled"`
— both in the returned booking and in the store — refuting "no subsequent
reschedule_booking operation changes a cancelled booking's status". -/
theorem cancelled_terminal_counterexample :
    (reschedule_booking
      [{ booking_ref := "r", calendar_id := "primary", event_id := "e", service_id := "svc",
         «start» := 0, «end» := 10, status := "cancelled", created_at := 0 }]
      "r" 20 30 7).2.map Booking.status = some "rescheduled" ∧
    (get_booking_by_ref (reschedule_booking
      [{ booking_ref := "r", calendar_id := "primary", event_id := "e", service_id := "svc",
         «start» := 0, «end» := 10, status := "cancelled", created_at := 0 }]
      "r" 20 30 7).1 "r").map Booking.status = some "rescheduled" := by
  decide

/-- C3 (amended): `cancel_booking` (via `update_booking_status _ _
"cancelled"`) leaves a cancelled booking's status at `"cancelled"`, but
`reschedule_booking` performs no source-state check: it sets the status of
any existing booking — a cancelled one included — to `"rescheduled"`, so
`"cancelled"` is not terminal under reschedule in the code. -/
theorem cancelled_terminal_amended (store : List Booking) (ref : String)
    (ns ne now : Nat) (b : Booking)
    (hb : get_booking_by_ref store ref = some b) (hc : b.status = "cancelled") :
    (cancel_booking store ref now).2.map Booking.status = some "cancelled" ∧
    (reschedule_booking store ref ns ne now).2.map Booking.status = some "rescheduled" := by
  constructor
  · simp [cancel_booking, update_booking_status, hb]
  · simp [reschedule_booking, hb]

/-- Witness for C3 (amended). -/
theorem cancelled_terminal_amended_witness :
    (cancel_booking
      [{ booking_ref := "r", calendar_id := "primary", event_id := "e", service_id := "svc",
         «start» := 0, «end» := 10, status := "cancelled", created_at := 0 }]
      "r" 7).2.map Booking.status = some "cancelled" ∧
    (reschedule_booking
      [{ booking_ref := "r", calendar_id := "primary", event_id := "e", service_id := "svc",
         «start» := 0, «end» := 10, status := "cancelled", created_at := 0 }]
      "r" 20 30 7).2.map Booking.status = some "rescheduled" :=
  cancelled_terminal_amended
    [{ booking_ref := "r", calendar_id := "primary", event_id := "e", service_id := "svc",
       «start» := 0, «end» := 10, status := "cancelled", created_at := 0 }] "r" 20 30 7
    { booking_ref := "r", calendar_id := "primary", event_id := "e", service_id := "svc",
      «start» := 0, «end» := 10, status := "cancelled", created_at := 0 }
    (by decide) (by decide)

/-! ## Claim C1: idempotent create -/

/-- C1 counterexample: two `book` calls with the same supplied
`idempotency_key = "k"` and identical other arguments (no client
`booking_ref`, so the first call stores the generated ref `"BK-1"`).
The first call succeeds, yet the second call issues a second external
`createEvent` and writes a second row with ref `"BK-2"` instead of
returning the first booking: the replay lookup compares the key against
`booking_ref`, which the first booking does not carry. -/
theorem idempotent_create_counterexample :
    (book []
      { customer := some { customer_id := some "c" }, «start» := 10, «end» := 20,
        service_id := some "svc", idempotency_key := some "k" }
      { createResult := some "e1", updateOk := true, deleteOk := true }
      { insertOk := true, updateOk := true } 1).1 =
      .ok { booking_ref := "BK-1", idempotency_key := some "k", customer_id := some "c",
            calendar_id := "primary", event_id := "e1", service_id := "svc",
            «start» := 10, «end» := 20, status := "confirmed", created_at := 1 } ∧
    (book (book []
      { customer := some { customer_id := some "c" }, «start» := 10, «end» := 20,
        service_id := some "svc", idempotency_key := some "k" }
      { createResult := some "e1", updateOk := true, deleteOk := true }
      { insertOk := true, updateOk := true } 1).2.1
      { customer := some { customer_id := some "c" }, «start» := 10, «end» := 20,
        service_id := some "svc", idempotency_key := some "k" }
      { createResult := some "e2", updateOk := true, deleteOk := true }
      { insertOk := true, updateOk := true } 2).2.2 = [.createEvent "primary" 10 20] ∧
    (book (book []
      { customer := some { customer_id := some "c" }, «start» := 10, «end» := 20,
        service_id := some "svc", idempotency_key := some "k" }
      { createResult := some "e1", updateOk := true, deleteOk := true }
      { insertOk := true, updateOk := true } 1).2.1
      { customer := some { customer_id := some "c" }, «start» := 10, «end» := 20,
        service_id := some "svc", idempotency_key := some "k" }
      { createResult := some "e2", updateOk := true, deleteOk := true }
      { insertOk := true, updateOk := true } 2).1 =
      .ok { booking_ref := "BK-2", idempotency_key := some "k", customer_id := some "c",
            calendar_id := "primary", event_id := "e2", service_id := "svc",
            «start» := 10, «end» := 20, status := "confirmed", created_at := 2 } ∧
    (book (book []
      { customer := some { customer_id := some "c" }, «start» := 10, «end» := 20,
        service_id := some "svc", idempotency_key := some "k" }
      { createResult := some "e1", updateOk := true, deleteOk := true }
      { insertOk := true, updateOk := true } 1).2.1
      { customer := some { customer_id := some "c" }, «start» := 10, «end» := 20,
        service_id := some "svc", idempotency_key := some "k" }
      { createResult := some "e2", updateOk := true, deleteOk := true }
      { insertOk := true, updateOk := true } 2).2.1.length = 2 := by
  refine ⟨rfl, rfl, rfl, rfl⟩

/-- C1 (amended): the replay check runs strictly before any external call,
but it compares the supplied `idempotency_key` against stored
`booking_ref`s (`crud.get_booking_by_ref`): whenever some stored booking's
`booking_ref` equals the supplied key, `book` returns that booking
unchanged, issues no external call at all (in particular no `createEvent`)
and writes no row. When the stored booking carries the key only in its
`idempotency_key` column — as after a first call with a generated ref —
the replay does not trigger (see the counterexample). -/
theorem idempotent_create_amended (store : List Booking) (req : BookRequest)
    (cal : CalendarOracle) (db : DbOracle) (now : Nat)
    (customer : CustomerInfo) (svc k : String) (b : Booking)
    (hc : req.customer = some customer) (hs : req.service_id = some svc)
    (hr : req.«start» < req.«end»)
    (hk : req.idempotency_key = some k)
    (hfound : get_booking_by_ref store k = some b) :
    book store req cal db now = (.ok b, store, []) := by
  simp only [book, hc, hs]
  rw [if_neg (by omega)]
  simp only [hk, hfound]

/-- Witness for C1 (amended): the stored booking's ref equals the key. -/
theorem idempotent_create_amended_witness :
    book
      [{ booking_ref := "k", idempotency_key := some "k", customer_id := some "c",
         calendar_id := "primary", event_id := "e1", service_id := "svc",
         «start» := 10, «end» := 20, status := "confirmed", created_at := 1 }]
      { customer := some { customer_id := some "c" }, «start» := 10, «end» := 20,
        service_id := some "svc", idempotency_key := some "k" }
      { createResult := some "e2", updateOk := true, deleteOk := true }
      { insertOk := true, updateOk := true } 2 =
      (.ok { booking_ref := "k", idempotency_key := some "k", customer_id := some "c",
             calendar_id := "primary", event_id := "e1", service_id := "svc",
             «start» := 10, «end» := 20, status := "confirmed", created_at := 1 },
       [{ booking_ref := "k", idempotency_key := some "k", customer_id := some "c",
          calendar_id := "primary", event_id := "e1", service_id := "svc",
          «start» := 10, «end» := 20, status := "confirmed", created_at := 1 }],
       []) :=
  idempotent_create_amended _ _ _ _ 2 { customer_id := some "c" } "svc" "k" _
    rfl rfl (by decide) rfl (by decide)

/-! ## Claim C6: compensation on create -/

/-- C6: whenever the external `createEvent` succeeds (returning `eid`) and
the local insert fails, `book` issues exactly one compensating
`deleteEvent` with that same `eid`, after the `createEvent` and before
returning; the result is `dbCreateFailed`, the store is unchanged, and
this holds for every outcome of the compensating delete (its failure is
only logged, never re-raised). -/
theorem compensation_on_create (store : List Booking) (req : BookRequest)
    (cal : CalendarOracle) (db : DbOracle) (now : Nat)
    (customer : CustomerInfo) (svc eid : String)
    (hc : req.customer = some customer) (hs : req.service_id = some svc)
    (hr : req.«start» < req.«end»)
    (hi : ∀ k, req.idempotency_key = some k → get_booking_by_ref store k = none)
    (hcr : cal.createResult = some eid)
    (hins : db.insertOk = false) :
    book store req cal db now =
      (.dbCreateFailed, store,
        [.createEvent req.calendar_id req.«start» req.«end»,
         .deleteEvent req.calendar_id eid]) := by
  simp only [book, hc, hs]
  rw [if_neg (by omega)]
  cases hik : req.idempotency_key with
  | none => simp [bookMain, hcr, hins]
  | some k =>
    simp [hi k hik, bookMain, hcr, hins]

/-- Witness for C6, with a failing compensating delete (`deleteOk = false`)
to exhibit that the delete failure does not change the outcome. -/
theorem compensation_on_create_witness :
    book []
      { customer := some { customer_id := some "c" }, «start» := 10, «end» := 20,
        service_id := some "svc", idempotency_key := some "k" }
      { createResult := some "e1", updateOk := true, deleteOk := false }
      { insertOk := false, updateOk := true } 1 =
      (.dbCreateFailed, [], [.createEvent "primary" 10 20, .deleteEvent "primary" "e1"]) :=
  compensation_on_create [] _ _ _ 1 { customer_id := some "c" } "svc" "e1"
    rfl rfl (by decide) (by intro k hk; cases hk; rfl) rfl rfl

/-! ## Claim C7: abort on external failure -/

/-- C7: if the external `createEvent` fails, `book` fails with
`calendarCreateFailed`, the store is unchanged (no local record written)
and the only external call is that failed `createEvent`; and if the
external `updateEvent` fails, `reschedule` fails with
`calendarUpdateFailed`, the store is unchanged (local record not mutated)
and the only external call is that failed `updateEvent`. -/
theorem abort_on_external_failure :
    (∀ (store : List Booking) (req : BookRequest) (cal : CalendarOracle) (db : DbOracle)
        (now : Nat) (customer : CustomerInfo) (svc : String),
      req.customer = some customer → req.service_id = some svc →
      req.«start» < req.«end» →
      (∀ k, req.idempotency_key = some k → get_booking_by_ref store k = none) →
      cal.createResult = none →
      book store req cal db now =
        (.calendarCreateFailed, store, [.createEvent req.calendar_id req.«start» req.«end»])) ∧
    (∀ (store : List Booking) (booking_ref : String) (ns ne : Nat) (cal : CalendarOracle)
        (db : DbOracle) (now : Nat) (b : Booking),
      ns < ne → get_booking_by_ref store booking_ref = some b → cal.updateOk = false →
      reschedule store booking_ref ns ne cal db now =
        (.calendarUpdateFailed, store, [.updateEvent b.calendar_id b.event_id ns ne])) := by
  constructor
  · intro store req cal db now customer svc hc hs hr hi hcr
    simp only [book, hc, hs]
    rw [if_neg (by omega)]
    cases hik : req.idempotency_key with
    | none => simp [bookMain, hcr]
    | some k =>
      simp [hi k hik, bookMain, hcr]
  · intro store booking_ref ns ne cal db now b hr hb hup
    simp only [reschedule]
    rw [if_neg (by omega)]
    simp [hb, hup]

/-- Witness for C7: a failing create on an empty store, and a failing
update on a one-row store. -/
theorem abort_on_external_failure_witness :
    book []
      { customer := some { customer_id := some "c" }, «start» := 10, «end» := 20,
        service_id := some "svc" }
      { createResult := none, updateOk := true, deleteOk := true }
      { insertOk := true, updateOk := true } 1 =
      (.calendarCreateFailed, [], [.createEvent "primary" 10 20]) ∧
    reschedule
      [{ booking_ref := "r", calendar_id := "primary", event_id := "e", service_id := "svc",
         «start» := 10, «end» := 20, status := "confirmed", created_at := 0 }]
      "r" 30 40
      { createResult := some "x", updateOk := false, deleteOk := true }
      { insertOk := true, updateOk := true } 5 =
      (.calendarUpdateFailed,
       [{ booking_ref := "r", calendar_id := "primary", event_id := "e", service_id := "svc",
          «start» := 10, «end» := 20, status := "confirmed", created_at := 0 }],
       [.updateEvent "primary" "e" 30 40]) := by
  constructor
  · exact abort_on_external_failure.1 [] _ _ _ 1 { customer_id := some "c" } "svc"
      rfl rfl (by decide) (by intro k hk; cases hk) rfl
  · exact abort_on_external_failure.2 _ "r" 30 40 _ _ 5
      { booking_ref := "r", calendar_id := "primary", event_id := "e", service_id := "svc",
        «start» := 10, «end» := 20, status := "confirmed", created_at := 0 }
      (by decide) (by decide) rfl

/-! ## Claim C8: cancel always locally succeeds -/

/-- C8: on an existing booking, even when the external `deleteEvent` fails
(`deleteOk = false`), `cancel` still transitions the local record's status
to `"cancelled"` and reports success; the delete failure is only logged
(the outcome does not depend on it). -/
theorem cancel_always_locally_succeeds (store : List Booking) (booking_ref : String)
    (cal : CalendarOracle) (db : DbOracle) (now : Nat) (b : Booking)
    (hb : get_booking_by_ref store booking_ref = some b)
    (hdel : cal.deleteOk = false)
    (hdb : db.updateOk = true) :
    cancel store booking_ref cal db now =
      (.ok { b with status := "cancelled", updated_at := some now },
       setBooking store booking_ref { b with status := "cancelled", updated_at := some now },
       [.deleteEvent b.calendar_id b.event_id]) ∧
    get_booking_by_ref (cancel store booking_ref cal db now).2.1 booking_ref =
      some { b with status := "cancelled", updated_at := some now } := by
  have h1 : cancel store booking_ref cal db now =
      (.ok { b with status := "cancelled", updated_at := some now },
       setBooking store booking_ref { b with status := "cancelled", updated_at := some now },
       [.deleteEvent b.calendar_id b.event_id]) := by
    simp [cancel, hb, hdb, update_booking_status]
  refine ⟨h1, ?_⟩
  rw [h1]
  exact @get_setBooking store booking_ref b
    { b with status := "cancelled", updated_at := some now }
    hb (@get_booking_by_ref_eq store booking_ref b hb)

/-- Witness for C8. -/
theorem cancel_always_locally_succeeds_witness :
    cancel
      [{ booking_ref := "r", calendar_id := "primary", event_id := "e", service_id := "svc",
         «start» := 10, «end» := 20, status := "confirmed", created_at := 0 }]
      "r"
      { createResult := some "x", updateOk := true, deleteOk := false }
      { insertOk := true, updateOk := true } 9 =
      (.ok { booking_ref := "r", calendar_id := "primary", event_id := "e",
             service_id := "svc", «start» := 10, «end» := 20, status := "cancelled",
             created_at := 0, updated_at := some 9 },
       setBooking
         [{ booking_ref := "r", calendar_id := "primary", event_id := "e", service_id := "svc",
            «start» := 10, «end» := 20, status := "confirmed", created_at := 0 }]
         "r"
         { booking_ref := "r", calendar_id := "primary", event_id := "e",
           service_id := "svc", «start» := 10, «end» := 20, status := "cancelled",
           created_at := 0, updated_at := some 9 },
       [.deleteEvent "primary" "e"]) ∧
    get_booking_by_ref (cancel
      [{ booking_ref := "r", calendar_id := "primary", event_id := "e", service_id := "svc",
         «start» := 10, «end» := 20, status := "confirmed", created_at := 0 }]
      "r"
      { createResult := some "x", updateOk := true, deleteOk := false }
      { insertOk := true, updateOk := true } 9).2.1 "r" =
      some { booking_ref := "r", calendar_id := "primary", event_id := "e",
             service_id := "svc", «start» := 10, «end» := 20, status := "cancelled",
             created_at := 0, updated_at := some 9 } :=
  cancel_always_locally_succeeds _ "r" _ _ 9
    { booking_ref := "r", calendar_id := "primary", event_id := "e", service_id := "svc",
      «start» := 10, «end» := 20, status := "confirmed", created_at := 0 }
    (by decide) rfl rfl

/-! ## Claim C9: availability failure semantics -/

/-- Dropping the elements on which `f` returns `none` does not change a
`filterMap`. -/
theorem filterMap_filter_isSome {α β : Type _} (f : α → Option β) (l : List α) :
    (l.filter fun a => (f a).isSome).filterMap f = l.filterMap f := by
  induction l with
  | nil => rfl
  | cons a t ih =>
    cases hf : f a with
    | none => simp [List.filter_cons, List.filterMap_cons, hf, ih]
    | some c => simp [List.filter_cons, List.filterMap_cons, hf, ih]

/-- Removing the malformed busy entries leaves the aggregated busy list
unchanged. -/
theorem aggregateBusy_wellFormedOnly (parse : String → Option Nat) (resp : FreeBusyResp) :
    aggregateBusy parse (wellFormedOnly parse resp) = aggregateBusy parse resp := by
  obtain ⟨cals⟩ := resp
  simp only [aggregateBusy, wellFormedOnly]
  induction cals with
  | nil => rfl
  | cons c t ih =>
    simp only [List.map_cons, List.flatMap_cons, ih]
    rw [filterMap_filter_isSome]

/-- C9: a failed Calendar Collaborator busy query fails the whole
`availability` call (an error, not a partial slot list); and malformed
individual busy entries inside a successful response are skipped: the
computed slots on any response equal the slots computed on that response
with its malformed entries removed, so the well-formed entries still
produce slots. -/
theorem availability_failure_semantics :
    (∀ (e : String) (parse : String → Option Nat) (dayStart dur ws we : Nat),
      availability (.error e) parse dayStart dur ws we = .error "freebusy_failed") ∧
    (∀ (parse : String → Option Nat) (resp : FreeBusyResp) (dayStart dur ws we : Nat),
      compute_free_slots_from_freebusy parse (wellFormedOnly parse resp) dayStart dur ws we =
        compute_free_slots_from_freebusy parse resp dayStart dur ws we) := by
  constructor
  · intro e parse dayStart dur ws we
    rfl
  · intro parse resp dayStart dur ws we
    unfold compute_free_slots_from_freebusy
    rw [aggregateBusy_wellFormedOnly]

end Chatbot
